import Mathlib

/-
Verification of the SimpleVector container (src/simple-vector/simple_vector.h).

Shallow embedding conventions:
* A `SimpleVector<Type>` is a record of its three data members: `size_`,
  `capacity_` (both `size_t`, modelled as `Nat`) and `array_`
  (a `unique_ptr<Type[]>` owning `capacity_` slots, modelled as a
  `List T` of length `capacity_`; the null pointer of a default-constructed
  vector is the empty list).
* Iterators (`Type*`) are modelled as offsets from `begin()`; the code only
  ever forms `pos - cbegin()` and `begin() + idx`, so an iterator is the
  index `idx`.
* `size_t` arithmetic is unsigned 64-bit.  The only place the code can
  leave `[0, 2^64)` is the unguarded decrement `--size_`, which wraps to
  `2^64 - 1` at 0; this wrap is modelled explicitly by `decWrap`.
* C++ `for` loops over indices are modelled by the counted loop combinators
  `forUp` / `forDown`, folding the loop body over the mutable array.
* `At` throws `std::out_of_range`; this is modelled by `Except String`.
-/

namespace SimpleVec

/-- The number of values of `size_t`: unsigned arithmetic is modulo `2^64`. -/
def W64 : Nat := 2 ^ 64

/-- `--n` on a `size_t` holding a value below `2^64`: wraps to `2^64 - 1` at 0. -/
def decWrap (n : Nat) : Nat := if n = 0 then W64 - 1 else n - 1

/-- Counted ascending loop: runs the body at `lo, lo+1, …, lo+n-1`. -/
def forUpN (f : Nat → α → α) : Nat → Nat → α → α
  | _, 0, a => a
  | lo, n + 1, a => forUpN f (lo + 1) n (f lo a)

/-- `for (i = lo; i != hi; ++i) a = body(i, a)` for `lo ≤ hi`
(the form every ascending loop in the source has on its in-contract inputs). -/
def forUp (f : Nat → α → α) (lo hi : Nat) (a : α) : α := forUpN f lo (hi - lo) a

/-- Counted descending loop: runs the body at `hi, hi-1, …, hi-n+1`. -/
def forDownN (f : Nat → α → α) : Nat → Nat → α → α
  | _, 0, a => a
  | hi, n + 1, a => forDownN f (hi - 1) n (f hi a)

/-- `for (i = hi; i != lo; --i) a = body(i, a)` for `lo ≤ hi`. -/
def forDown (f : Nat → α → α) (hi lo : Nat) (a : α) : α := forDownN f hi (hi - lo) a

/-- `std::make_unique<Type[]>(n)`: an allocation of `n` default-constructed
slots (`Type()` is `default`). -/
def mkUniq (T : Type) [Inhabited T] (n : Nat) : List T := List.replicate n default

/-- The data members of `SimpleVector<Type>`: `size_`, `capacity_`, `array_`. -/
structure SV (T : Type) where
  size : Nat
  capacity : Nat
  arr : List T
deriving DecidableEq

namespace SV

variable {T : Type} [Inhabited T]

/-- `SimpleVector() noexcept = default;` — members take their initializers:
`size_ = 0`, `capacity_ = 0`, `array_` null. -/
def empty (T : Type) : SV T := ⟨0, 0, []⟩

/-- `explicit SimpleVector(size_t size)` — `size_(size), capacity_(size),
array_(make_unique<Type[]>(capacity_))`. -/
def ofSize (T : Type) [Inhabited T] (n : Nat) : SV T := ⟨n, n, mkUniq T n⟩

/-- `SimpleVector(size_t size, const Type& value)` — allocates as `ofSize`,
then `for (i = 0; i < size_; ++i) array_[i] = value;`. -/
def ofSizeValue (n : Nat) (x : T) : SV T :=
  ⟨n, n, forUp (fun i a => a.set i x) 0 n (mkUniq T n)⟩

/-- `SimpleVector(std::initializer_list<Type> init)` — `size_ = capacity_ =
init.size()`, fresh allocation, then the range-for copies the items into
slots `0, 1, …` in order (item `i` of the list goes to slot `i`). -/
def ofList (l : List T) : SV T :=
  ⟨l.length, l.length,
    forUp (fun i a => a.set i (l.getD i default)) 0 l.length (mkUniq T l.length)⟩

/-- `GetSize` -/
def GetSize (v : SV T) : Nat := v.size

/-- `GetCapacity` -/
def GetCapacity (v : SV T) : Nat := v.capacity

/-- `IsEmpty` -/
def IsEmpty (v : SV T) : Bool := v.size == 0

/-- `operator[]` (unchecked): `return array_[index];`. -/
def get (v : SV T) (i : Nat) : T := v.arr.getD i default

/-- `At`: `if (index >= size_) throw std::out_of_range("Index is out of
range"); return array_[index];`. -/
def At (v : SV T) (i : Nat) : Except String T :=
  if v.size ≤ i then Except.error "Index is out of range"
  else Except.ok (v.arr.getD i default)

/-- `Clear() noexcept { size_ = 0; }` -/
def Clear (v : SV T) : SV T := { v with size := 0 }

/-- `Resize(size_t new_size)`: if `new_size > capacity_`, allocate
`new_size` slots, move the `size_` live elements over, set
`capacity_ = new_size`; then default-construct slots `[size_, new_size)`
and set `size_ = new_size`. -/
def Resize (v : SV T) (newSize : Nat) : SV T :=
  let v1 := if v.capacity < newSize then
      { v with
        arr := forUp (fun i a => a.set i (v.arr.getD i default)) 0 v.size (mkUniq T newSize),
        capacity := newSize }
    else v
  { v1 with
    arr := forUp (fun i a => a.set i (default : T)) v.size newSize v1.arr,
    size := newSize }

/-- `swap(SimpleVector&) noexcept` — exchanges all three members. -/
def swap (a b : SV T) : SV T × SV T := (b, a)

/-- `Erase(ConstIterator pos)`: `idx = pos - cbegin()`; shift
`array_[idx+1 .. size_-1]` one slot left, `--size_`, return
`begin() + idx`. -/
def Erase (v : SV T) (idx : Nat) : SV T × Nat :=
  let a := forUp (fun i a => a.set (i - 1) (a.getD i default)) (idx + 1) v.size v.arr
  ({ v with size := decWrap v.size, arr := a }, idx)

/-- `PopBack() noexcept { --size_; }` — no emptiness check: decrements
`size_` unconditionally (wrapping at 0). -/
def PopBack (v : SV T) : SV T := { v with size := decWrap v.size }

/-- `Insert(ConstIterator pos, Type&& value)` with `idx = pos - cbegin()`:
if `size_ == capacity_`, grow (`capacity_ = capacity_ == 0 ? 1 :
2 * capacity_`), allocate, copy `[0, idx)`, place the value at `idx`, copy
`[idx, size_)` shifted one right; otherwise shift `[idx, size_)` one right
in place (loop `i = size_` down to `idx+1`) and place the value at `idx`.
Then `++size_;` and return `begin() + idx`. -/
def Insert (v : SV T) (idx : Nat) (x : T) : SV T × Nat :=
  if v.size = v.capacity then
    let c : Nat := if v.capacity = 0 then 1 else 2 * v.capacity
    let na0 := mkUniq T c
    let na1 := forUp (fun i a => a.set i (v.arr.getD i default)) 0 idx na0
    let na2 := na1.set idx x
    let na3 := forUp (fun i a => a.set (i + 1) (v.arr.getD i default)) idx v.size na2
    ({ size := v.size + 1, capacity := c, arr := na3 }, idx)
  else
    let a1 := forDown (fun i a => a.set i (a.getD (i - 1) default)) v.size idx v.arr
    let a2 := a1.set idx x
    ({ v with size := v.size + 1, arr := a2 }, idx)

/-- `PushBack(Type&& item) { Insert(end(), std::move(item)); }` —
`end()` is offset `size_`. -/
def PushBack (v : SV T) (x : T) : SV T := (Insert v v.size x).1

/-- `SimpleVector(const SimpleVector& other)` — `size_(other.GetSize()),
capacity_(other.GetCapacity()), array_(make_unique<Type[]>(capacity_))`,
then `std::copy(other.begin(), other.end(), begin())`. -/
def copyCtor (o : SV T) : SV T :=
  { size := o.size, capacity := o.capacity,
    arr := forUp (fun i a => a.set i (o.arr.getD i default)) 0 o.size (mkUniq T o.capacity) }

/-- `operator=(const SimpleVector& rhs)`: `if (&rhs == this) return *this;`
(the `same` flag records whether the operands are the same object);
otherwise `SimpleVector tmp(rhs); swap(tmp);` leaves `*this` holding the
copy of `rhs`. -/
def copyAssign (same : Bool) (this rhs : SV T) : SV T :=
  if same then this else copyCtor rhs

/-- `Reserve(size_t new_capacity)`: if `new_capacity > capacity_`, allocate
`new_capacity` slots, `std::copy(begin(), end(), ...)`, set
`capacity_ = new_capacity`; otherwise do nothing. -/
def Reserve (v : SV T) (n : Nat) : SV T :=
  if v.capacity < n then
    { v with
      arr := forUp (fun i a => a.set i (v.arr.getD i default)) 0 v.size (mkUniq T n),
      capacity := n }
  else v

/-- `SimpleVector(ReserveProxyObj other)` — members take their default
initializers, then `Reserve(other.capacity_to_reserve);`. -/
def ofReserve (T : Type) [Inhabited T] (n : Nat) : SV T := Reserve (empty T) n

/-- `operator=(SimpleVector&& rhs) noexcept`: `if (this != &rhs)` (the
`same` flag records object identity) copy `size_` and `capacity_`, move
`array_` (leaving `rhs.array_` null), then zero `rhs.size_` and
`rhs.capacity_`.  Returns the pair (new `*this`, `rhs` afterwards). -/
def moveAssign (same : Bool) (this rhs : SV T) : SV T × SV T :=
  if same then (this, rhs)
  else (⟨rhs.size, rhs.capacity, rhs.arr⟩, ⟨0, 0, []⟩)

/-- `SimpleVector(SimpleVector&& other) noexcept { *this = std::move(other); }`
— members default-initialized, then move-assignment (the two objects are
distinct).  Returns (the new vector, `other` afterwards). -/
def moveCtor (o : SV T) : SV T × SV T := moveAssign false (empty T) o

/-- The logical contents of the vector: the live elements in slots
`[0, size_)`. -/
def view (v : SV T) : List T := v.arr.take v.size

/-- Well-formedness of a reachable vector state: `size_ ≤ capacity_` and the
allocation really has `capacity_` slots. -/
def wf (v : SV T) : Prop := v.size ≤ v.capacity ∧ v.arr.length = v.capacity

instance (v : SV T) : Decidable (wf v) :=
  inferInstanceAs (Decidable (v.size ≤ v.capacity ∧ v.arr.length = v.capacity))

/-- The spec's container invariant: `size <= capacity`. -/
def inv (v : SV T) : Prop := v.size ≤ v.capacity

instance (v : SV T) : Decidable (inv v) :=
  inferInstanceAs (Decidable (v.size ≤ v.capacity))

end SV

/-- The capacity after `n` `PushBack` calls on a default-constructed vector,
following the code's growth rule (grow exactly when `size_ == capacity_`,
to `capacity_ == 0 ? 1 : 2 * capacity_`). -/
def capAfter : Nat → Nat
  | 0 => 0
  | n + 1 =>
      if n = capAfter n then (if capAfter n = 0 then 1 else 2 * capAfter n)
      else capAfter n

/-- `n` consecutive `PushBack` calls on a default-constructed vector,
pushing the values `f 0, f 1, …, f (n - 1)`. -/
def pushSeq {T : Type} [Inhabited T] (f : Nat → T) : Nat → SV T
  | 0 => SV.empty T
  | n + 1 => SV.PushBack (pushSeq f n) (f n)

/-! ### Loop characterizations

Pointwise descriptions (via `getElem?`) of the three loop shapes the source
uses: copying from a fixed source array (constructors, `Reserve`, `Resize`,
the two copy loops of the growing `Insert`), the left shift of `Erase`, and
the in-place right shift of the non-growing `Insert`. -/

section Loops

/-- Loop bodies that only `set` slots do not change the array's length. -/
theorem forUpN_length {α : Type} (f : Nat → List α → List α)
    (hf : ∀ i a, (f i a).length = a.length) :
    ∀ (n lo : Nat) (dest : List α), (forUpN f lo n dest).length = dest.length
  | 0, _, _ => rfl
  | n + 1, lo, dest => by
      rw [forUpN, forUpN_length f hf n (lo + 1) _, hf]

theorem forDownN_length {α : Type} (f : Nat → List α → List α)
    (hf : ∀ i a, (f i a).length = a.length) :
    ∀ (n hi : Nat) (dest : List α), (forDownN f hi n dest).length = dest.length
  | 0, _, _ => rfl
  | n + 1, hi, dest => by
      rw [forDownN, forDownN_length f hf n (hi - 1) _, hf]

variable {T : Type} [Inhabited T]

/-- Setting one slot does not change another slot's `getD` read. -/
theorem getD_set_ne (l : List T) (i k : Nat) (x : T) (h : i ≠ k) :
    (l.set i x).getD k default = l.getD k default := by
  rw [List.getD_eq_getElem?_getD, List.getD_eq_getElem?_getD,
    List.getElem?_set_ne h]

/-- Copy loop, writing `dest[i + off] = src[i]` for `i ∈ [lo, lo + n)`. -/
theorem copyLoop_getElem? (src : List T) (off : Nat) :
    ∀ (n lo : Nat) (dest : List T) (j : Nat),
      (forUpN (fun i a => a.set (i + off) (src.getD i default)) lo n dest)[j]? =
        if lo + off ≤ j ∧ j < lo + n + off ∧ j < dest.length
        then some (src.getD (j - off) default) else dest[j]?
  | 0, lo, dest, j => by
      rw [forUpN, if_neg (show ¬(lo + off ≤ j ∧ j < lo + 0 + off ∧ j < dest.length)
        by omega)]
  | n + 1, lo, dest, j => by
      rw [forUpN, copyLoop_getElem? src off n (lo + 1) _ j, List.length_set]
      by_cases h1 : lo + 1 + off ≤ j ∧ j < lo + 1 + n + off ∧ j < dest.length
      · rw [if_pos h1,
          if_pos (show lo + off ≤ j ∧ j < lo + (n + 1) + off ∧ j < dest.length
            from ⟨by omega, by omega, h1.2.2⟩)]
      · rw [if_neg h1, List.getElem?_set]
        by_cases h2 : lo + off = j
        · rw [if_pos h2]
          by_cases h3 : lo + off < dest.length
          · rw [if_pos h3,
              if_pos (show lo + off ≤ j ∧ j < lo + (n + 1) + off ∧ j < dest.length
                from ⟨by omega, by omega, by omega⟩),
              show j - off = lo by omega]
          · rw [if_neg h3,
              if_neg (show ¬(lo + off ≤ j ∧ j < lo + (n + 1) + off ∧ j < dest.length)
                by omega)]
            exact (List.getElem?_eq_none (by omega)).symm
        · rw [if_neg h2,
            if_neg (show ¬(lo + off ≤ j ∧ j < lo + (n + 1) + off ∧ j < dest.length)
              by omega)]

/-- The copy loop with no offset, as used by `Reserve`, `Resize`, the copy
constructor and the first loop of a growing `Insert`. -/
theorem copyLoop0_getElem? (src : List T) (n lo : Nat) (dest : List T) (j : Nat) :
    (forUpN (fun i a => a.set i (src.getD i default)) lo n dest)[j]? =
      if lo ≤ j ∧ j < lo + n ∧ j < dest.length
      then some (src.getD j default) else dest[j]? := by
  have h := copyLoop_getElem? src 0 n lo dest j
  simp only [Nat.add_zero, Nat.sub_zero] at h
  exact h

/-- The copy loop with offset one, as used by the second loop of a growing
`Insert` (`new_array[i + 1] = move(array_[i])`). -/
theorem copyLoop1_getElem? (src : List T) (n lo : Nat) (dest : List T) (j : Nat) :
    (forUpN (fun i a => a.set (i + 1) (src.getD i default)) lo n dest)[j]? =
      if lo + 1 ≤ j ∧ j < lo + n + 1 ∧ j < dest.length
      then some (src.getD (j - 1) default) else dest[j]? :=
  copyLoop_getElem? src 1 n lo dest j

/-- The `Erase` shift: `array_[i - 1] = move(array_[i])` for
`i ∈ [lo, lo + n)`.  Each iteration reads a slot no earlier iteration has
written, so the values read are those of the original array. -/
theorem eraseLoop_getElem? :
    ∀ (n lo : Nat) (dest : List T) (j : Nat), 1 ≤ lo → lo + n ≤ dest.length →
      (forUpN (fun i a => a.set (i - 1) (a.getD i default)) lo n dest)[j]? =
        if lo - 1 ≤ j ∧ j < lo - 1 + n
        then some (dest.getD (j + 1) default) else dest[j]?
  | 0, lo, dest, j, _, _ => by
      rw [forUpN, if_neg (show ¬(lo - 1 ≤ j ∧ j < lo - 1 + 0) by omega)]
  | n + 1, lo, dest, j, hlo, hlen => by
      rw [forUpN,
        eraseLoop_getElem? n (lo + 1) (dest.set (lo - 1) (dest.getD lo default)) j
          (by omega) (by rw [List.length_set]; omega)]
      by_cases h1 : lo + 1 - 1 ≤ j ∧ j < lo + 1 - 1 + n
      · rw [if_pos h1, getD_set_ne dest (lo - 1) (j + 1) _ (by omega),
          if_pos (show lo - 1 ≤ j ∧ j < lo - 1 + (n + 1) from ⟨by omega, by omega⟩)]
      · rw [if_neg h1, List.getElem?_set]
        by_cases h2 : lo - 1 = j
        · rw [if_pos h2, if_pos (show lo - 1 < dest.length by omega),
            if_pos (show lo - 1 ≤ j ∧ j < lo - 1 + (n + 1) from ⟨by omega, by omega⟩),
            show j + 1 = lo by omega]
        · rw [if_neg h2, if_neg (show ¬(lo - 1 ≤ j ∧ j < lo - 1 + (n + 1)) by omega)]

/-- The in-place right shift of the non-growing `Insert`:
`array_[i] = move(array_[i - 1])` for `i = hi, hi-1, …, hi-n+1`.  Each
iteration reads a slot no earlier iteration has written. -/
theorem insertLoop_getElem? :
    ∀ (n hi : Nat) (dest : List T) (j : Nat), n ≤ hi → hi < dest.length →
      (forDownN (fun i a => a.set i (a.getD (i - 1) default)) hi n dest)[j]? =
        if hi - n < j ∧ j ≤ hi
        then some (dest.getD (j - 1) default) else dest[j]?
  | 0, hi, dest, j, _, _ => by
      rw [forDownN, if_neg (show ¬(hi - 0 < j ∧ j ≤ hi) by omega)]
  | n + 1, hi, dest, j, hn, hlen => by
      rw [forDownN,
        insertLoop_getElem? n (hi - 1) (dest.set hi (dest.getD (hi - 1) default)) j
          (by omega) (by rw [List.length_set]; omega)]
      by_cases h1 : hi - 1 - n < j ∧ j ≤ hi - 1
      · rw [if_pos h1, getD_set_ne dest hi (j - 1) _ (by omega),
          if_pos (show hi - (n + 1) < j ∧ j ≤ hi from ⟨by omega, by omega⟩)]
      · rw [if_neg h1, List.getElem?_set]
        by_cases h2 : hi = j
        · rw [if_pos h2, if_pos hlen,
            if_pos (show hi - (n + 1) < j ∧ j ≤ hi from ⟨by omega, by omega⟩),
            show j - 1 = hi - 1 by omega]
        · rw [if_neg h2, if_neg (show ¬(hi - (n + 1) < j ∧ j ≤ hi) by omega)]

end Loops

/-! ### Operation-level lemmas

Pointwise and list-level descriptions of each operation's effect on the
logical contents `view`, under the well-formedness `wf` that every
in-contract use of the container maintains. -/

section Ops

variable {T : Type} [Inhabited T]

theorem mkUniq_length (n : Nat) : (mkUniq T n).length = n :=
  List.length_replicate n default

theorem some_getD {l : List T} {j : Nat} (h : j < l.length) :
    some (l.getD j default) = l[j]? := by
  rw [List.getD_eq_getElem?_getD, List.getElem?_eq_getElem h]
  rfl

omit [Inhabited T] in
theorem view_getElem? (v : SV T) (j : Nat) :
    (SV.view v)[j]? = if j < v.size then v.arr[j]? else none := by
  rw [SV.view, List.getElem?_take]

omit [Inhabited T] in
theorem view_length (v : SV T) (h : SV.wf v) : (SV.view v).length = v.size := by
  obtain ⟨h1, h2⟩ := h
  rw [SV.view, List.length_take]
  omega

theorem decWrap_pos {n : Nat} (h : 0 < n) : decWrap n = n - 1 := by
  rw [decWrap, if_neg (by omega)]

/-- The copy constructor preserves size, preserves capacity (it copies the
source's `capacity_`, not its `size_`), copies the elements, and yields a
well-formed vector. -/
theorem copyCtor_spec (o : SV T) (h : SV.wf o) :
    (SV.copyCtor o).size = o.size ∧ (SV.copyCtor o).capacity = o.capacity ∧
      SV.view (SV.copyCtor o) = SV.view o ∧ SV.wf (SV.copyCtor o) := by
  obtain ⟨h1, h2⟩ := h
  have hlen : (SV.copyCtor o).arr.length = o.capacity := by
    simp only [SV.copyCtor, forUp]
    rw [forUpN_length _ (fun i a => List.length_set a i _), mkUniq_length]
  refine ⟨rfl, rfl, ?_, ?_, hlen⟩
  · apply List.ext_getElem?
    intro j
    simp only [view_getElem?, SV.copyCtor, forUp, Nat.sub_zero, mkUniq_length]
    by_cases hj : j < o.size
    · rw [if_pos hj, if_pos hj, copyLoop0_getElem?, mkUniq_length,
        if_pos ⟨Nat.zero_le _, by omega, by omega⟩]
      exact some_getD (by omega)
    · rw [if_neg hj, if_neg hj]
  · show o.size ≤ o.capacity
    omega

/-- `Reserve` with `new_capacity > capacity_`: sets capacity to exactly the
requested value, preserves the size and the elements, stays well-formed. -/
theorem Reserve_grow_spec (v : SV T) (n : Nat) (h : SV.wf v) (hn : v.capacity < n) :
    (SV.Reserve v n).capacity = n ∧ (SV.Reserve v n).size = v.size ∧
      SV.view (SV.Reserve v n) = SV.view v ∧ SV.wf (SV.Reserve v n) := by
  obtain ⟨h1, h2⟩ := h
  simp only [SV.Reserve, if_pos hn]
  have hlen : (forUp (fun i a => a.set i (v.arr.getD i default)) 0 v.size
      (mkUniq T n)).length = n := by
    rw [forUp, forUpN_length _ (fun i a => List.length_set a i _), mkUniq_length]
  refine ⟨trivial, trivial, ?_, ?_, hlen⟩
  · apply List.ext_getElem?
    intro j
    simp only [view_getElem?, forUp, Nat.sub_zero]
    by_cases hj : j < v.size
    · rw [if_pos hj, if_pos hj, copyLoop0_getElem?, mkUniq_length,
        if_pos ⟨Nat.zero_le _, by omega, by omega⟩]
      exact some_getD (by omega)
    · rw [if_neg hj, if_neg hj]
  · show v.size ≤ n
    omega

/-- `Reserve` with `new_capacity <= capacity_` does nothing at all. -/
theorem Reserve_noop (v : SV T) (n : Nat) (hn : n ≤ v.capacity) :
    SV.Reserve v n = v := by
  rw [SV.Reserve, if_neg (by omega)]

omit [Inhabited T] in
/-- Pointwise description of the sequence the spec expects from `insert`:
`[e0..e(i-1), v, ei..e(n-1)]`. -/
theorem insertTarget_getElem? (l : List T) (i : Nat) (x : T) (j : Nat)
    (hi : i ≤ l.length) :
    (l.take i ++ x :: l.drop i)[j]? =
      if j < i then l[j]? else if j = i then some x
      else if j < l.length + 1 then l[j - 1]? else none := by
  have hlt : (l.take i).length = i := by rw [List.length_take]; omega
  rw [List.getElem?_append, hlt]
  by_cases h1 : j < i
  · rw [if_pos h1, if_pos h1, List.getElem?_take, if_pos h1]
  · rw [if_neg h1, if_neg h1, List.getElem?_cons]
    by_cases h2 : j = i
    · rw [if_pos (show j - i = 0 by omega), if_pos h2]
    · rw [if_neg (show ¬(j - i = 0) by omega), if_neg h2]
      by_cases h3 : j < l.length + 1
      · rw [if_pos h3, List.getElem?_drop, show i + (j - i - 1) = j - 1 by omega]
      · rw [if_neg h3]
        exact List.getElem?_eq_none (by rw [List.length_drop]; omega)

omit [Inhabited T] in
/-- Pointwise description of the sequence the spec expects from `erase`:
`[e0..e(i-1), e(i+1)..e(n-1)]`. -/
theorem eraseTarget_getElem? (l : List T) (i : Nat) (j : Nat) (hi : i < l.length) :
    (l.take i ++ l.drop (i + 1))[j]? =
      if j < i then l[j]? else if j < l.length - 1 then l[j + 1]? else none := by
  have hlt : (l.take i).length = i := by rw [List.length_take]; omega
  rw [List.getElem?_append, hlt]
  by_cases h1 : j < i
  · rw [if_pos h1, if_pos h1, List.getElem?_take, if_pos h1]
  · rw [if_neg h1, if_neg h1, List.getElem?_drop]
    by_cases h2 : j < l.length - 1
    · rw [if_pos h2, show i + 1 + (j - i) = j + 1 by omega]
    · rw [if_neg h2]
      exact List.getElem?_eq_none (by omega)

theorem Insert_size (v : SV T) (i : Nat) (x : T) :
    (SV.Insert v i x).1.size = v.size + 1 := by
  rw [SV.Insert]
  split <;> rfl

/-- Capacity change of `Insert`: the code grows exactly when
`size_ == capacity_`, to `capacity_ == 0 ? 1 : 2 * capacity_`. -/
theorem Insert_capacity (v : SV T) (i : Nat) (x : T) :
    (SV.Insert v i x).1.capacity =
      if v.size = v.capacity then (if v.capacity = 0 then 1 else 2 * v.capacity)
      else v.capacity := by
  by_cases hg : v.size = v.capacity
  · rw [SV.Insert, if_pos hg, if_pos hg]
  · rw [SV.Insert, if_neg hg, if_neg hg]

theorem Insert_ret (v : SV T) (i : Nat) (x : T) : (SV.Insert v i x).2 = i := by
  rw [SV.Insert]
  split <;> rfl

theorem Insert_wf (v : SV T) (i : Nat) (x : T) (h : SV.wf v) :
    SV.wf (SV.Insert v i x).1 := by
  obtain ⟨h1, h2⟩ := h
  by_cases hg : v.size = v.capacity
  · simp only [SV.Insert, if_pos hg, SV.wf, forUp]
    constructor
    · split <;> omega
    · rw [forUpN_length _ (fun k a => List.length_set a _ _), List.length_set,
        forUpN_length _ (fun k a => List.length_set a _ _), mkUniq_length]
  · simp only [SV.Insert, if_neg hg, SV.wf, forDown]
    refine ⟨by omega, ?_⟩
    rw [List.length_set, forDownN_length _ (fun k a => List.length_set a _ _)]
    exact h2

/-- The contents after `Insert` at `i ≤ size`, on either path:
`[e0..e(i-1), x, ei..e(n-1)]`. -/
theorem Insert_view (v : SV T) (i : Nat) (x : T) (h : SV.wf v) (hi : i ≤ v.size) :
    SV.view (SV.Insert v i x).1 = (SV.view v).take i ++ x :: (SV.view v).drop i := by
  obtain ⟨h1, h2⟩ := h
  have hvl : (SV.view v).length = v.size := view_length v ⟨h1, h2⟩
  apply List.ext_getElem?
  intro j
  rw [insertTarget_getElem? (SV.view v) i x j (by omega), hvl]
  by_cases hg : v.size = v.capacity
  · have hc : v.size + 1 ≤ (if v.capacity = 0 then 1 else 2 * v.capacity) := by
      split <;> omega
    have hlen1 : (forUpN (fun k a => a.set k (v.arr.getD k default)) 0 i
        (mkUniq T (if v.capacity = 0 then 1 else 2 * v.capacity))).length
        = (if v.capacity = 0 then 1 else 2 * v.capacity) := by
      rw [forUpN_length _ (fun k a => List.length_set a _ _), mkUniq_length]
    simp only [SV.Insert, if_pos hg, view_getElem?, forUp, Nat.sub_zero,
      copyLoop1_getElem?, List.getElem?_set, copyLoop0_getElem?, List.length_set,
      hlen1, mkUniq_length]
    split_ifs <;>
      first
        | rfl
        | omega
        | (exact some_getD (by omega))
        | (exact (some_getD (by omega)).symm)
        | (exact List.getElem?_eq_none (by omega))
        | (exact (List.getElem?_eq_none (by omega)).symm)
  · have hsz : v.size < v.arr.length := by omega
    simp only [SV.Insert, if_neg hg, view_getElem?, forDown]
    rw [List.getElem?_set,
      insertLoop_getElem? (v.size - i) v.size v.arr j (by omega) hsz,
      forDownN_length _ (fun k a => List.length_set a _ _)]
    split_ifs <;>
      first
        | rfl
        | omega
        | (exact some_getD (by omega))
        | (exact (some_getD (by omega)).symm)
        | (exact List.getElem?_eq_none (by omega))
        | (exact (List.getElem?_eq_none (by omega)).symm)

/-- The contents after `Erase` at `i < size`:
`[e0..e(i-1), e(i+1)..e(n-1)]`; size drops by one, capacity and the
allocation are untouched, and the returned iterator is offset `i`. -/
theorem Erase_spec (v : SV T) (i : Nat) (h : SV.wf v) (hi : i < v.size) :
    SV.view (SV.Erase v i).1 = (SV.view v).take i ++ (SV.view v).drop (i + 1) ∧
      (SV.Erase v i).1.size = v.size - 1 ∧
      (SV.Erase v i).1.capacity = v.capacity ∧
      (SV.Erase v i).2 = i ∧ SV.wf (SV.Erase v i).1 := by
  obtain ⟨h1, h2⟩ := h
  have hvl : (SV.view v).length = v.size := view_length v ⟨h1, h2⟩
  have hsz : (SV.Erase v i).1.size = v.size - 1 := by
    simp only [SV.Erase]
    exact decWrap_pos (by omega)
  have hlen : (SV.Erase v i).1.arr.length = v.arr.length := by
    simp only [SV.Erase, forUp]
    exact forUpN_length _ (fun k a => List.length_set a _ _) _ _ _
  refine ⟨?_, hsz, rfl, rfl, ?_, ?_⟩
  case refine_2 =>
    rw [hsz]
    show v.size - 1 ≤ v.capacity
    omega
  case refine_3 =>
    show (SV.Erase v i).1.arr.length = v.capacity
    rw [hlen]
    exact h2
  apply List.ext_getElem?
  intro j
  rw [eraseTarget_getElem? (SV.view v) i j (by omega), hvl]
  simp only [SV.Erase, view_getElem?, forUp, decWrap_pos (show 0 < v.size by omega)]
  rw [eraseLoop_getElem? (v.size - (i + 1)) (i + 1) v.arr j (by omega) (by omega)]
  split_ifs <;>
    first
      | rfl
      | omega
      | (exact some_getD (by omega))
      | (exact (some_getD (by omega)).symm)
      | (exact List.getElem?_eq_none (by omega))
      | (exact (List.getElem?_eq_none (by omega)).symm)

omit [Inhabited T] in
/-- `PopBack` on a non-empty vector: size drops by one, capacity and storage
untouched, the last logical element is dropped. -/
theorem PopBack_spec (v : SV T) (h : SV.wf v) (hpos : 0 < v.size) :
    (SV.PopBack v).size = v.size - 1 ∧ (SV.PopBack v).capacity = v.capacity ∧
      SV.view (SV.PopBack v) = (SV.view v).dropLast := by
  obtain ⟨h1, h2⟩ := h
  refine ⟨decWrap_pos hpos, rfl, ?_⟩
  have hl : (SV.view v).length = v.size := view_length v ⟨h1, h2⟩
  rw [List.dropLast_eq_take, hl, SV.view, SV.view, List.take_take,
    show min (v.size - 1) v.size = v.size - 1 by omega]
  show v.arr.take (decWrap v.size) = v.arr.take (v.size - 1)
  rw [decWrap_pos hpos]

/-- The code's growth expression equals the spec's `max(1, 2 * old)`. -/
theorem grow_eq_max (c : Nat) : (if c = 0 then 1 else 2 * c) = max 1 (2 * c) := by
  by_cases h : c = 0
  · rw [if_pos h, h]
    omega
  · rw [if_neg h]
    omega

theorem PushBack_size (v : SV T) (x : T) : (SV.PushBack v x).size = v.size + 1 := by
  rw [SV.PushBack, Insert_size]

theorem PushBack_capacity (v : SV T) (x : T) :
    (SV.PushBack v x).capacity =
      if v.size = v.capacity then (if v.capacity = 0 then 1 else 2 * v.capacity)
      else v.capacity := by
  rw [SV.PushBack, Insert_capacity]

theorem pushSeq_size_capacity (f : Nat → T) :
    ∀ n, (pushSeq f n).size = n ∧ (pushSeq f n).capacity = capAfter n
  | 0 => ⟨rfl, rfl⟩
  | n + 1 => by
      obtain ⟨hs, hc⟩ := pushSeq_size_capacity f n
      constructor
      · rw [pushSeq, PushBack_size, hs]
      · rw [pushSeq, PushBack_capacity, hs, hc, capAfter]

/-- Closed form for the capacity after `n` pushes: `0` for `n = 0`, else the
least power of two that is at least `n` — i.e. the sequence
`0 → 1 → 2 → 4 → 8 → …`. -/
theorem capAfter_closed : ∀ n, capAfter n = if n = 0 then 0 else 2 ^ Nat.clog 2 n
  | 0 => rfl
  | n + 1 => by
      have ih := capAfter_closed n
      rw [capAfter, ih]
      by_cases h0 : n = 0
      · subst h0
        simp [Nat.clog_one_right]
      · rw [if_neg h0, if_neg (show ¬(n + 1 = 0) by omega)]
        have hle : n ≤ 2 ^ Nat.clog 2 n := Nat.le_pow_clog (by norm_num) n
        have hpos : 0 < 2 ^ Nat.clog 2 n := Nat.pos_pow_of_pos _ (by norm_num)
        by_cases heq : n = 2 ^ Nat.clog 2 n
        · rw [if_pos heq, if_neg (by omega)]
          have hlb : Nat.clog 2 n < Nat.clog 2 (n + 1) := by
            rw [← Nat.pow_lt_iff_lt_clog (by norm_num)]
            omega
          have hub : Nat.clog 2 (n + 1) ≤ Nat.clog 2 n + 1 := by
            rw [← Nat.le_pow_iff_clog_le (by norm_num), Nat.pow_succ]
            omega
          rw [show Nat.clog 2 (n + 1) = Nat.clog 2 n + 1 by omega, Nat.pow_succ]
          omega
        · rw [if_neg heq]
          have hmono : Nat.clog 2 n ≤ Nat.clog 2 (n + 1) :=
            Nat.clog_mono_right 2 (by omega)
          have hub : Nat.clog 2 (n + 1) ≤ Nat.clog 2 n := by
            rw [← Nat.le_pow_iff_clog_le (by norm_num)]
            omega
          rw [show Nat.clog 2 (n + 1) = Nat.clog 2 n by omega]

/-- `Reserve` keeps the invariant `size <= capacity`. -/
theorem inv_Reserve (u : SV T) (n : Nat) (hu : SV.inv u) : SV.inv (SV.Reserve u n) := by
  have hu' : u.size ≤ u.capacity := hu
  rw [SV.inv, SV.Reserve]
  by_cases hn : u.capacity < n
  · rw [if_pos hn]
    show u.size ≤ n
    omega
  · rw [if_neg hn]
    exact hu'

theorem Resize_size (v : SV T) (m : Nat) : (SV.Resize v m).size = m := rfl

theorem Resize_capacity (v : SV T) (m : Nat) :
    (SV.Resize v m).capacity = if v.capacity < m then m else v.capacity := by
  by_cases hm : v.capacity < m
  · simp only [SV.Resize, if_pos hm]
  · simp only [SV.Resize, if_neg hm]

theorem inv_Resize (v : SV T) (m : Nat) : SV.inv (SV.Resize v m) := by
  rw [SV.inv, Resize_size, Resize_capacity]
  by_cases hm : v.capacity < m
  · rw [if_pos hm]
  · rw [if_neg hm]
    omega

theorem inv_Insert (v : SV T) (i : Nat) (x : T) (hv : SV.inv v) :
    SV.inv (SV.Insert v i x).1 := by
  have hv' : v.size ≤ v.capacity := hv
  rw [SV.inv, Insert_size, Insert_capacity]
  split_ifs <;> omega

theorem inv_PushBack (v : SV T) (x : T) (hv : SV.inv v) :
    SV.inv (SV.PushBack v x) := by
  rw [SV.PushBack]
  exact inv_Insert v v.size x hv

theorem inv_Erase (v : SV T) (i : Nat) (hv : SV.inv v) (hi : i < v.size) :
    SV.inv (SV.Erase v i).1 := by
  have hv' : v.size ≤ v.capacity := hv
  show decWrap v.size ≤ v.capacity
  rw [decWrap_pos (by omega)]
  omega

theorem inv_PopBack (v : SV T) (hv : SV.inv v) (hpos : 0 < v.size) :
    SV.inv (SV.PopBack v) := by
  have hv' : v.size ≤ v.capacity := hv
  show decWrap v.size ≤ v.capacity
  rw [decWrap_pos hpos]
  omega

theorem inv_copyCtor (v : SV T) (hv : SV.inv v) : SV.inv (SV.copyCtor v) := hv

theorem inv_copyAssign (same : Bool) (t s : SV T) (ht : SV.inv t) (hs : SV.inv s) :
    SV.inv (SV.copyAssign same t s) := by
  cases same
  · exact inv_copyCtor s hs
  · exact ht

end Ops

/-! ### The claims -/

section Claims

variable {T : Type} [Inhabited T]

/-- C1, counterexample: `PopBack` on an empty vector is not a no-op — the
unguarded `--size_` wraps `size_` to `2^64 - 1` instead of leaving it 0. -/
theorem C1_counterexample : ¬ ((SV.PopBack (SV.empty Nat)).size = 0) := by
  decide

/-- C1 (amended): `PopBack` on a non-empty vector decreases `size` by 1
(logically removing the last element) and never fails; but `PopBack` on an
empty vector is not a no-op: the unconditional `--size_` wraps `size` to
`2^64 - 1` (the caller must ensure the vector is non-empty). -/
theorem C1_popBack (v : SV T) (h : SV.wf v) (hpos : 0 < v.size) :
    (SV.PopBack v).size = v.size - 1 ∧ (SV.PopBack v).capacity = v.capacity ∧
      SV.view (SV.PopBack v) = (SV.view v).dropLast :=
  PopBack_spec v h hpos

/-- C1, witness: the amended claim at the concrete vector `[1, 2, 3]`. -/
theorem C1_witness :
    (SV.PopBack (SV.ofList [1, 2, 3] : SV Nat)).size =
        (SV.ofList [1, 2, 3] : SV Nat).size - 1 ∧
      (SV.PopBack (SV.ofList [1, 2, 3] : SV Nat)).capacity =
        (SV.ofList [1, 2, 3] : SV Nat).capacity ∧
      SV.view (SV.PopBack (SV.ofList [1, 2, 3] : SV Nat)) =
        (SV.view (SV.ofList [1, 2, 3] : SV Nat)).dropLast :=
  C1_popBack (SV.ofList [1, 2, 3]) (by decide) (by decide)

/-- C2, counterexample: `PopBack` on an empty vector breaks the invariant
`size <= capacity` (size wraps to `2^64 - 1` while capacity stays 0). -/
theorem C2_counterexample :
    ¬ ((SV.PopBack (SV.empty Nat)).size ≤ (SV.PopBack (SV.empty Nat)).capacity) := by
  decide

/-- C2 (amended): every public operation applied within its precondition
maps containers satisfying `size <= capacity` to containers satisfying
`size <= capacity` — except that `PopBack` (and `Erase`) additionally
require a non-empty container, since the unguarded `--size_` otherwise
wraps `size` above any capacity.  (The accessors `At`, `operator[]` and the
getters do not modify the container.) -/
theorem C2_invariant (v w : SV T) (l : List T) (n i : Nat) (x : T) (same : Bool)
    (hv : SV.inv v) (hw : SV.inv w) :
    SV.inv (SV.empty T) ∧ SV.inv (SV.ofSize T n) ∧ SV.inv (SV.ofSizeValue n x) ∧
      SV.inv (SV.ofList l) ∧ SV.inv (SV.ofReserve T n) ∧
      SV.inv (SV.Clear v) ∧ SV.inv (SV.Resize v n) ∧ SV.inv (SV.Reserve v n) ∧
      SV.inv (SV.Insert v i x).1 ∧ SV.inv (SV.PushBack v x) ∧
      (i < v.size → SV.inv (SV.Erase v i).1) ∧
      (0 < v.size → SV.inv (SV.PopBack v)) ∧
      SV.inv (SV.copyCtor v) ∧ SV.inv (SV.copyAssign same w v) ∧
      SV.inv (SV.moveCtor v).1 ∧ SV.inv (SV.moveCtor v).2 ∧
      SV.inv (SV.moveAssign false w v).1 ∧ SV.inv (SV.moveAssign false w v).2 ∧
      SV.inv (SV.swap v w).1 ∧ SV.inv (SV.swap v w).2 :=
  ⟨Nat.le_refl 0, Nat.le_refl n, Nat.le_refl n, Nat.le_refl l.length,
   inv_Reserve (SV.empty T) n (Nat.le_refl 0), Nat.zero_le _, inv_Resize v n,
   inv_Reserve v n hv, inv_Insert v i x hv, inv_PushBack v x hv,
   fun hi => inv_Erase v i hv hi, fun hp => inv_PopBack v hv hp,
   inv_copyCtor v hv, inv_copyAssign same w v hw hv,
   hv, Nat.le_refl 0, hv, Nat.le_refl 0, hw, hv⟩

/-- C2, witness: the amended claim at concrete containers. -/
theorem C2_witness :
    SV.inv (SV.empty Nat) ∧ SV.inv (SV.ofSize Nat 4) ∧
      SV.inv (SV.ofSizeValue 4 (9 : Nat)) ∧
      SV.inv (SV.ofList [(5 : Nat)]) ∧ SV.inv (SV.ofReserve Nat 4) ∧
      SV.inv (SV.Clear (SV.ofList [1, 2] : SV Nat)) ∧
      SV.inv (SV.Resize (SV.ofList [1, 2] : SV Nat) 4) ∧
      SV.inv (SV.Reserve (SV.ofList [1, 2] : SV Nat) 4) ∧
      SV.inv (SV.Insert (SV.ofList [1, 2] : SV Nat) 0 9).1 ∧
      SV.inv (SV.PushBack (SV.ofList [1, 2] : SV Nat) 9) ∧
      (0 < (SV.ofList [1, 2] : SV Nat).size →
        SV.inv (SV.Erase (SV.ofList [1, 2] : SV Nat) 0).1) ∧
      (0 < (SV.ofList [1, 2] : SV Nat).size →
        SV.inv (SV.PopBack (SV.ofList [1, 2] : SV Nat))) ∧
      SV.inv (SV.copyCtor (SV.ofList [1, 2] : SV Nat)) ∧
      SV.inv (SV.copyAssign false (SV.ofSize Nat 3) (SV.ofList [1, 2])) ∧
      SV.inv (SV.moveCtor (SV.ofList [1, 2] : SV Nat)).1 ∧
      SV.inv (SV.moveCtor (SV.ofList [1, 2] : SV Nat)).2 ∧
      SV.inv (SV.moveAssign false (SV.ofSize Nat 3) (SV.ofList [1, 2])).1 ∧
      SV.inv (SV.moveAssign false (SV.ofSize Nat 3) (SV.ofList [1, 2])).2 ∧
      SV.inv (SV.swap (SV.ofList [1, 2] : SV Nat) (SV.ofSize Nat 3)).1 ∧
      SV.inv (SV.swap (SV.ofList [1, 2] : SV Nat) (SV.ofSize Nat 3)).2 :=
  C2_invariant (SV.ofList [1, 2]) (SV.ofSize Nat 3) [5] 4 0 9 false
    (by decide) (by decide)

/-- C3, counterexample: copying a vector with size 0 and capacity 1 yields
capacity 1, not the source's size 0 — the copy constructor copies
`other.GetCapacity()`, not `other.GetSize()`. -/
theorem C3_counterexample :
    (SV.copyCtor (SV.ofReserve Nat 1)).capacity ≠ (SV.ofReserve Nat 1).size := by
  decide

/-- C3 (amended): copy construction and copy assignment produce a copy whose
elements equal the source's elements in order and whose size equals the
source's size, and whose capacity equals the source's CAPACITY (not the
source's size). -/
theorem C3_copy (t s : SV T) (h : SV.wf s) :
    (SV.copyCtor s).size = s.size ∧ (SV.copyCtor s).capacity = s.capacity ∧
      SV.view (SV.copyCtor s) = SV.view s ∧
      (SV.copyAssign false t s).size = s.size ∧
      (SV.copyAssign false t s).capacity = s.capacity ∧
      SV.view (SV.copyAssign false t s) = SV.view s := by
  obtain ⟨h1, h2, h3, -⟩ := copyCtor_spec s h
  exact ⟨h1, h2, h3, h1, h2, h3⟩

/-- C3, witness: the amended claim, copying the concrete vector `[7, 8]`. -/
theorem C3_witness :
    (SV.copyCtor (SV.ofList [7, 8] : SV Nat)).size = (SV.ofList [7, 8] : SV Nat).size ∧
      (SV.copyCtor (SV.ofList [7, 8] : SV Nat)).capacity =
        (SV.ofList [7, 8] : SV Nat).capacity ∧
      SV.view (SV.copyCtor (SV.ofList [7, 8] : SV Nat)) =
        SV.view (SV.ofList [7, 8] : SV Nat) ∧
      (SV.copyAssign false (SV.empty Nat) (SV.ofList [7, 8])).size =
        (SV.ofList [7, 8] : SV Nat).size ∧
      (SV.copyAssign false (SV.empty Nat) (SV.ofList [7, 8])).capacity =
        (SV.ofList [7, 8] : SV Nat).capacity ∧
      SV.view (SV.copyAssign false (SV.empty Nat) (SV.ofList [7, 8])) =
        SV.view (SV.ofList [7, 8] : SV Nat) :=
  C3_copy (SV.empty Nat) (SV.ofList [7, 8]) (by decide)

/-- C4: whenever `Insert` or `PushBack` must grow (`size == capacity`
before the call), the new capacity is `max(1, 2 * old_capacity)`, and
otherwise the capacity is unchanged; consequently `N` `PushBack` calls from
an empty vector end with `size = N` and the capacity having evolved through
`0, 1, 2, 4, 8, …` — in closed form `2 ^ clog 2 N` for `N > 0`. -/
theorem C4_growth (v : SV T) (i : Nat) (x : T) (f : Nat → T) (n : Nat) :
    (SV.Insert v i x).1.capacity =
      (if v.size = v.capacity then max 1 (2 * v.capacity) else v.capacity) ∧
    (SV.PushBack v x).capacity =
      (if v.size = v.capacity then max 1 (2 * v.capacity) else v.capacity) ∧
    (pushSeq f n).size = n ∧
    (pushSeq f n).capacity = (if n = 0 then 0 else 2 ^ Nat.clog 2 n) := by
  refine ⟨?_, ?_, (pushSeq_size_capacity f n).1, ?_⟩
  · rw [Insert_capacity, grow_eq_max]
  · rw [PushBack_capacity, grow_eq_max]
  · rw [(pushSeq_size_capacity f n).2, capAfter_closed]

/-- C5: `Insert` at position `i ≤ n` of `[e0..e(n-1)]` with value `x`
produces `[e0..e(i-1), x, ei..e(n-1)]` with size `n + 1`, grows the
capacity (only) when `size == capacity`, and returns an iterator to the
inserted element, i.e. offset `i`. -/
theorem C5_insert (v : SV T) (i : Nat) (x : T) (h : SV.wf v) (hi : i ≤ v.size) :
    SV.view (SV.Insert v i x).1 = (SV.view v).take i ++ x :: (SV.view v).drop i ∧
      (SV.Insert v i x).1.size = v.size + 1 ∧
      (SV.Insert v i x).1.capacity =
        (if v.size = v.capacity then max 1 (2 * v.capacity) else v.capacity) ∧
      (SV.Insert v i x).2 = i :=
  ⟨Insert_view v i x h hi, Insert_size v i x,
   by rw [Insert_capacity, grow_eq_max], Insert_ret v i x⟩

/-- C5, witness: inserting 99 at position 1 of `[10, 20, 30]`. -/
theorem C5_witness :
    SV.view (SV.Insert (SV.ofList [10, 20, 30] : SV Nat) 1 99).1 =
        (SV.view (SV.ofList [10, 20, 30] : SV Nat)).take 1 ++
          99 :: (SV.view (SV.ofList [10, 20, 30] : SV Nat)).drop 1 ∧
      (SV.Insert (SV.ofList [10, 20, 30] : SV Nat) 1 99).1.size =
        (SV.ofList [10, 20, 30] : SV Nat).size + 1 ∧
      (SV.Insert (SV.ofList [10, 20, 30] : SV Nat) 1 99).1.capacity =
        (if (SV.ofList [10, 20, 30] : SV Nat).size =
            (SV.ofList [10, 20, 30] : SV Nat).capacity
         then max 1 (2 * (SV.ofList [10, 20, 30] : SV Nat).capacity)
         else (SV.ofList [10, 20, 30] : SV Nat).capacity) ∧
      (SV.Insert (SV.ofList [10, 20, 30] : SV Nat) 1 99).2 = 1 :=
  C5_insert (SV.ofList [10, 20, 30]) 1 99 (by decide) (by decide)

/-- C6: `Erase` at position `i < n` of `[e0..e(n-1)]` produces
`[e0..e(i-1), e(i+1)..e(n-1)]` with size `n - 1`, leaves the capacity
unchanged, and returns an iterator to the element now at position `i`,
i.e. offset `i`. -/
theorem C6_erase (v : SV T) (i : Nat) (h : SV.wf v) (hi : i < v.size) :
    SV.view (SV.Erase v i).1 = (SV.view v).take i ++ (SV.view v).drop (i + 1) ∧
      (SV.Erase v i).1.size = v.size - 1 ∧
      (SV.Erase v i).1.capacity = v.capacity ∧
      (SV.Erase v i).2 = i := by
  obtain ⟨a, b, c, d, -⟩ := Erase_spec v i h hi
  exact ⟨a, b, c, d⟩

/-- C6, witness: erasing position 1 of `[10, 20, 30, 40]`. -/
theorem C6_witness :
    SV.view (SV.Erase (SV.ofList [10, 20, 30, 40] : SV Nat) 1).1 =
        (SV.view (SV.ofList [10, 20, 30, 40] : SV Nat)).take 1 ++
          (SV.view (SV.ofList [10, 20, 30, 40] : SV Nat)).drop 2 ∧
      (SV.Erase (SV.ofList [10, 20, 30, 40] : SV Nat) 1).1.size =
        (SV.ofList [10, 20, 30, 40] : SV Nat).size - 1 ∧
      (SV.Erase (SV.ofList [10, 20, 30, 40] : SV Nat) 1).1.capacity =
        (SV.ofList [10, 20, 30, 40] : SV Nat).capacity ∧
      (SV.Erase (SV.ofList [10, 20, 30, 40] : SV Nat) 1).2 = 1 :=
  C6_erase (SV.ofList [10, 20, 30, 40]) 1 (by decide) (by decide)

/-- C7: move assignment between distinct vectors transfers the source's
size, capacity and elements to the target and leaves the source a valid
empty vector (`size = 0`, `capacity = 0`, no storage); move construction
does the same; neither can fail (both are total). -/
theorem C7_move (a b : SV T) :
    (SV.moveAssign false b a).1.size = a.size ∧
      (SV.moveAssign false b a).1.capacity = a.capacity ∧
      SV.view (SV.moveAssign false b a).1 = SV.view a ∧
      (SV.moveAssign false b a).2.size = 0 ∧
      (SV.moveAssign false b a).2.capacity = 0 ∧
      (SV.moveAssign false b a).2.arr = [] ∧
      (SV.moveCtor a).1.size = a.size ∧
      (SV.moveCtor a).1.capacity = a.capacity ∧
      SV.view (SV.moveCtor a).1 = SV.view a ∧
      (SV.moveCtor a).2.size = 0 ∧
      (SV.moveCtor a).2.capacity = 0 ∧
      (SV.moveCtor a).2.arr = [] :=
  ⟨rfl, rfl, rfl, rfl, rfl, rfl, rfl, rfl, rfl, rfl, rfl, rfl⟩

/-- C8: `Reserve(n)` with `n > capacity` sets the capacity to exactly `n`
preserving size and elements; with `n <= capacity` it is a no-op; and it is
idempotent — calling it twice with the same `n` changes nothing the second
time. -/
theorem C8_reserve (v : SV T) (n : Nat) (h : SV.wf v) :
    (v.capacity < n →
      (SV.Reserve v n).capacity = n ∧ (SV.Reserve v n).size = v.size ∧
        SV.view (SV.Reserve v n) = SV.view v) ∧
    (n ≤ v.capacity → SV.Reserve v n = v) ∧
    SV.Reserve (SV.Reserve v n) n = SV.Reserve v n := by
  refine ⟨?_, fun hn => Reserve_noop v n hn, ?_⟩
  · intro hn
    obtain ⟨a, b, c, -⟩ := Reserve_grow_spec v n h hn
    exact ⟨a, b, c⟩
  · by_cases hn : v.capacity < n
    · obtain ⟨a, -, -, -⟩ := Reserve_grow_spec v n h hn
      exact Reserve_noop _ n (by omega)
    · rw [Reserve_noop v n (by omega), Reserve_noop v n (by omega)]

/-- C8, witness: reserving 10 slots on the concrete vector `[1, 2, 3]`. -/
theorem C8_witness :
    ((SV.ofList [1, 2, 3] : SV Nat).capacity < 10 →
      (SV.Reserve (SV.ofList [1, 2, 3] : SV Nat) 10).capacity = 10 ∧
        (SV.Reserve (SV.ofList [1, 2, 3] : SV Nat) 10).size =
          (SV.ofList [1, 2, 3] : SV Nat).size ∧
        SV.view (SV.Reserve (SV.ofList [1, 2, 3] : SV Nat) 10) =
          SV.view (SV.ofList [1, 2, 3] : SV Nat)) ∧
    (10 ≤ (SV.ofList [1, 2, 3] : SV Nat).capacity →
      SV.Reserve (SV.ofList [1, 2, 3] : SV Nat) 10 = SV.ofList [1, 2, 3]) ∧
    SV.Reserve (SV.Reserve (SV.ofList [1, 2, 3] : SV Nat) 10) 10 =
      SV.Reserve (SV.ofList [1, 2, 3] : SV Nat) 10 :=
  C8_reserve (SV.ofList [1, 2, 3]) 10 (by decide)

/-- C9: the checked accessor `At` fails with the out-of-range error (the
spec's IndexError) iff `index >= size`, and otherwise returns the element
at that index; in particular, on a non-empty vector `At size` fails and
`At (size - 1)` succeeds.  (In this embedding `At` is the only fallible
operation: every other operation is a total function and can raise
nothing.) -/
theorem C9_at (v : SV T) (i : Nat) (h : SV.wf v) :
    ((SV.At v i = Except.error "Index is out of range") ↔ v.size ≤ i) ∧
      (i < v.size → SV.At v i = Except.ok ((SV.view v).getD i default)) ∧
      (0 < v.size →
        SV.At v v.size = Except.error "Index is out of range" ∧
        SV.At v (v.size - 1) =
          Except.ok ((SV.view v).getD (v.size - 1) default)) := by
  obtain ⟨h1, h2⟩ := h
  have hget : ∀ k, k < v.size →
      SV.At v k = Except.ok ((SV.view v).getD k default) := by
    intro k hk
    rw [SV.At, if_neg (by omega)]
    congr 1
    rw [SV.view, List.getD_eq_getElem?_getD, List.getD_eq_getElem?_getD,
      List.getElem?_take, if_pos hk]
  refine ⟨⟨?_, ?_⟩, hget i, fun hp => ⟨?_, hget (v.size - 1) (by omega)⟩⟩
  · intro heq
    by_contra hlt
    rw [SV.At, if_neg hlt] at heq
    exact Except.noConfusion heq
  · intro hle
    rw [SV.At, if_pos hle]
  · rw [SV.At, if_pos (Nat.le_refl _)]

/-- C9, witness: the claim at the concrete vector `[5, 7]` and index 2. -/
theorem C9_witness :
    ((SV.At (SV.ofList [5, 7] : SV Nat) 2 = Except.error "Index is out of range") ↔
        (SV.ofList [5, 7] : SV Nat).size ≤ 2) ∧
      (2 < (SV.ofList [5, 7] : SV Nat).size →
        SV.At (SV.ofList [5, 7] : SV Nat) 2 =
          Except.ok ((SV.view (SV.ofList [5, 7] : SV Nat)).getD 2 default)) ∧
      (0 < (SV.ofList [5, 7] : SV Nat).size →
        SV.At (SV.ofList [5, 7] : SV Nat) (SV.ofList [5, 7] : SV Nat).size =
          Except.error "Index is out of range" ∧
        SV.At (SV.ofList [5, 7] : SV Nat) ((SV.ofList [5, 7] : SV Nat).size - 1) =
          Except.ok ((SV.view (SV.ofList [5, 7] : SV Nat)).getD
            ((SV.ofList [5, 7] : SV Nat).size - 1) default)) :=
  C9_at (SV.ofList [5, 7]) 2 (by decide)

/-- C10: self-assignment leaves the vector unchanged: with the identity
guard taken (`same = true`) copy-assignment returns `*this` untouched, and
even along the unguarded deep-copy path (`same = false`) the result has the
same size, capacity and elements; guarded move-self-assignment returns both
handles unchanged. -/
theorem C10_self_assign (a : SV T) (same : Bool) (h : SV.wf a) :
    (SV.copyAssign same a a).size = a.size ∧
      (SV.copyAssign same a a).capacity = a.capacity ∧
      SV.view (SV.copyAssign same a a) = SV.view a ∧
      SV.moveAssign true a a = (a, a) := by
  obtain ⟨c1, c2, c3, -⟩ := copyCtor_spec a h
  cases same
  · exact ⟨c1, c2, c3, rfl⟩
  · exact ⟨rfl, rfl, rfl, rfl⟩

/-- C10, witness: self-assignment of the concrete vector `[3, 4]` along the
deep-copy path. -/
theorem C10_witness :
    (SV.copyAssign false (SV.ofList [3, 4] : SV Nat) (SV.ofList [3, 4])).size =
        (SV.ofList [3, 4] : SV Nat).size ∧
      (SV.copyAssign false (SV.ofList [3, 4] : SV Nat) (SV.ofList [3, 4])).capacity =
        (SV.ofList [3, 4] : SV Nat).capacity ∧
      SV.view (SV.copyAssign false (SV.ofList [3, 4] : SV Nat) (SV.ofList [3, 4])) =
        SV.view (SV.ofList [3, 4] : SV Nat) ∧
      SV.moveAssign true (SV.ofList [3, 4] : SV Nat) (SV.ofList [3, 4]) =
        (SV.ofList [3, 4], SV.ofList [3, 4]) :=
  C10_self_assign (SV.ofList [3, 4]) false (by decide)

end Claims

end SimpleVec
